import Mathlib

/-!
Verification of the Agent Session Core of the workforest orchestrator
(server implementation in `src/server/src/main.rs`, shared data model in
`src/core/src/lib.rs`).

The Rust code is embedded shallowly:

* Byte buffers (`VecDeque<u8>`, `&[u8]`) become `List Nat` of byte values.
* The PTY-reader loops (`find_safe_history_start`, `parse_csi_sequence`,
  `parse_string_sequence`) iterate a cursor over a fixed buffer; they are
  embedded with a structural fuel argument (`bytes.length + 1` steps is
  always enough, since every iteration advances the cursor by at least
  one and the loop stops once the cursor reaches the end), keeping every
  definition computable so concrete inputs evaluate by `decide`/`rfl`.
* Stateful registry operations become explicit state passing over an
  association list `List (String × PtySession)` mirroring the
  `HashMap<String, PtySession>`; the OS-level resources inside a session
  (PTY master handle, writer, child process, reader thread handle) carry
  no pure data and are represented by the outcome parameters of the
  operations that touch them (for example `master_ok : Bool` stands for
  the result of `session.master.resize(..)`).
-/

namespace Workforest

/-! ### HistoryRing: escape-aware trimming (`src/server/src/main.rs:942-1009`) -/

/-- Number of bytes the CSI scanner consumes from the remainder of the
buffer: `parse_csi_sequence` reads bytes until it has consumed a final
byte in `0x40..=0x7e` (or the buffer ends). -/
def csiSeqLen : List Nat → Nat
  | [] => 0
  | b :: rest => if 0x40 ≤ b ∧ b ≤ 0x7e then 1 else 1 + csiSeqLen rest

/-- `parse_csi_sequence(bytes, start)`: scan from `start`, consuming one
byte at a time, stopping just past the first final byte. -/
def parse_csi_sequence (bytes : List Nat) (start : Nat) : Nat :=
  start + csiSeqLen (bytes.drop start)

/-- Number of bytes the string-sequence scanner consumes from the
remainder of the buffer: `parse_string_sequence` stops just past a BEL
(0x07), just past an `ESC \` pair, or at the end of the buffer. -/
def oscSeqLen : List Nat → Nat
  | [] => 0
  | b :: rest =>
    if b = 0x07 then 1
    else if b = 0x1b ∧ rest.head? = some 0x5c then 2
    else 1 + oscSeqLen rest

/-- `parse_string_sequence(bytes, start)`: scan from `start` for the
string terminator (BEL or `ESC \`). -/
def parse_string_sequence (bytes : List Nat) (start : Nat) : Nat :=
  start + oscSeqLen (bytes.drop start)

/-- One iteration of the `find_safe_history_start` scan loop: from
cursor `index`, classify the byte there and return the next cursor
position, or `none` when the loop exits (cursor at the end, or a bare
trailing ESC whose classifying byte is missing — the Rust `break`). -/
def scanStep (bytes : List Nat) (index : Nat) : Option Nat :=
  match bytes.get? index with
  | none => none
  | some b =>
    if b = 0x1b then
      match bytes.get? (index + 1) with
      | none => none
      | some next =>
        if next = 0x5b then some (parse_csi_sequence bytes (index + 2))
        else if next = 0x5d ∨ next = 0x50 ∨ next = 0x5e ∨ next = 0x5f then
          some (parse_string_sequence bytes (index + 2))
        else some (min (index + 2) bytes.length)
    else some (index + 1)

/-- The scan loop of `find_safe_history_start`, with structural fuel:
advance the cursor with `scanStep`, recording the cursor as `lastSafe`
whenever it is `≤ overflow`. -/
def findSafeGo (bytes : List Nat) (overflow : Nat) : Nat → Nat → Nat → Nat
  | 0, _, lastSafe => lastSafe
  | fuel + 1, index, lastSafe =>
    match scanStep bytes index with
    | none => lastSafe
    | some j => findSafeGo bytes overflow fuel j (if j ≤ overflow then j else lastSafe)

/-- `find_safe_history_start(bytes, overflow)` from the source: the
largest escape-sequence-safe cut point that is `≤ overflow`. -/
def find_safe_history_start (bytes : List Nat) (overflow : Nat) : Nat :=
  findSafeGo bytes overflow (bytes.length + 1) 0 0

/-- `trim_history_to_boundary(history, limit)`: when the ring exceeds
`limit`, pop `find_safe_history_start(ring, len - limit)` bytes from the
front. -/
def trim_history_to_boundary (history : List Nat) (limit : Nat) : List Nat :=
  if history.length ≤ limit then history
  else history.drop (find_safe_history_start history (history.length - limit))

/-- One PTY-read iteration of the reader thread, restricted to the
history ring: push every byte of the chunk, then trim
(`spawn_history_reader`, `src/server/src/main.rs:908-915`). -/
def append_chunk (history chunk : List Nat) (limit : Nat) : List Nat :=
  trim_history_to_boundary (history ++ chunk) limit

/-- All cursor positions visited by the scan loop (same `scanStep`,
same fuel): the positions at which a cut never separates the bytes of
one escape sequence. -/
def scanBoundariesGo (bytes : List Nat) : Nat → Nat → List Nat
  | 0, index => [index]
  | fuel + 1, index =>
    index ::
      (match scanStep bytes index with
       | none => []
       | some j => scanBoundariesGo bytes fuel j)

/-- The set of safe cut points of a buffer: every position the
escape-sequence scanner visits when started at offset 0. -/
def scanBoundaries (bytes : List Nat) : List Nat :=
  scanBoundariesGo bytes (bytes.length + 1) 0

/-! ### SubscriberFanout (`src/server/src/main.rs:924-925`)

A subscriber is one `UnixStream` endpoint held in the session's
`subscribers` vector.  Whether a given `write_all` on it succeeds is
decided by the kernel; the embedding carries that environment as the
`pending` oracle (the outcomes of the sink's future writes, head
first).  `log` is the byte stream the subscriber has observed. -/

structure Sink where
  id : Nat
  log : List Nat
  pending : List Bool
deriving DecidableEq

/-- Outcome of the next `write_all` on this sink, per its oracle. -/
def sink_write_ok (s : Sink) : Bool := s.pending.headD true

/-- `stream.write_all(&buffer[..size])`: on success the sink has
observed the whole chunk, in order, after everything it saw before; on
failure the sink is dropped (`retain_mut` keeps only `is_ok` sinks). -/
def write_all_sink (chunk : List Nat) (s : Sink) : Option Sink :=
  if sink_write_ok s then
    some { s with log := s.log ++ chunk, pending := s.pending.tail }
  else none

/-- `subs.retain_mut(|stream| stream.write_all(&buffer[..size]).is_ok())`:
one fanout iteration over the subscriber vector, in registration order. -/
def fanout_chunk (chunk : List Nat) (subs : List Sink) : List Sink :=
  subs.filterMap (write_all_sink chunk)

/-- The fanout over a whole sequence of PTY read chunks. -/
def fanout_run (chunks : List (List Nat)) (subs : List Sink) : List Sink :=
  chunks.foldl (fun acc c => fanout_chunk c acc) subs

/-! ### TerminalSnapshot data model (`src/core/src/lib.rs:20-117`) -/

inductive CursorShape
  | default
  | blinkingBlock
  | steadyBlock
  | blinkingUnderline
  | steadyUnderline
  | blinkingBar
  | steadyBar
deriving DecidableEq

inductive TerminalColor
  | default
  | ansi (index : Nat)
  | rgb (r g b : Nat)
deriving DecidableEq

inductive TerminalIntensity
  | normal
  | bold
  | faint
deriving DecidableEq

inductive TerminalUnderline
  | none
  | single
  | double
deriving DecidableEq

inductive TerminalBlink
  | none
  | slow
  | rapid
deriving DecidableEq

structure TerminalAttributes where
  foreground : TerminalColor
  background : TerminalColor
  intensity : TerminalIntensity
  underline : TerminalUnderline
  blink : TerminalBlink
  inverse : Bool
  italic : Bool
  hidden : Bool
  strikethrough : Bool
deriving DecidableEq

/-- `TerminalAttributes::default()`. -/
def defaultAttributes : TerminalAttributes :=
  { foreground := .default, background := .default, intensity := .normal,
    underline := .none, blink := .none, inverse := false, italic := false,
    hidden := false, strikethrough := false }

structure ScrollRegion where
  top : Nat
  bottom : Nat
deriving DecidableEq

structure CursorPosition where
  x : Nat
  y : Nat
deriving DecidableEq

structure ModeEntry where
  code : Nat
  enabled : Bool
deriving DecidableEq

structure TerminalSnapshot where
  alt_screen : Bool
  mouse_tracking : Bool
  mouse_button_tracking : Bool
  mouse_any_event : Bool
  mouse_sgr : Bool
  cursor_visible : Bool
  cursor_shape : CursorShape
  origin_mode : Bool
  wrap_mode : Bool
  insert_mode : Bool
  scroll_region : Option ScrollRegion
  attributes : TerminalAttributes
  saved_cursor_main : Option CursorPosition
  saved_cursor_alt : Option CursorPosition
  dec_private_modes : List ModeEntry
  terminal_modes : List ModeEntry
deriving DecidableEq

/-- `default_terminal_snapshot()` (`src/server/src/main.rs:934-940`):
`TerminalSnapshot::default()` with `cursor_visible` and `wrap_mode` on. -/
def default_terminal_snapshot : TerminalSnapshot :=
  { alt_screen := false, mouse_tracking := false, mouse_button_tracking := false,
    mouse_any_event := false, mouse_sgr := false, cursor_visible := true,
    cursor_shape := .default, origin_mode := false, wrap_mode := true,
    insert_mode := false, scroll_region := none, attributes := defaultAttributes,
    saved_cursor_main := none, saved_cursor_alt := none,
    dec_private_modes := [], terminal_modes := [] }

/-! ### Snapshot updates: cursor CSI and mode CSI
(`src/server/src/main.rs:1036-1178`) -/

/-- The `termwiz` cursor styles matched in `apply_cursor_to_snapshot`. -/
inductive CursorStyleCsi
  | default
  | blinkingBlock
  | steadyBlock
  | blinkingUnderline
  | steadyUnderline
  | blinkingBar
  | steadyBar
deriving DecidableEq

/-- The `termwiz` `Cursor` CSI variants the server reacts to.  Margins
carry the one-based row numbers of the control sequence (the library's
`OneBased` wrapper); every other variant falls into the wildcard arm. -/
inductive CursorCsi
  | setTopAndBottomMargins (top bottom : Nat)
  | cursorStyle (style : CursorStyleCsi)
  | otherCursor
deriving DecidableEq

/-- `OneBased::as_zero_based()`. -/
def as_zero_based (value : Nat) : Nat := value - 1

/-- `apply_cursor_to_snapshot` (`src/server/src/main.rs:1036-1060`). -/
def apply_cursor_to_snapshot (cursor : CursorCsi) (snapshot : TerminalSnapshot) :
    TerminalSnapshot :=
  match cursor with
  | .setTopAndBottomMargins t b =>
    let top := as_zero_based t
    let bottom := as_zero_based b
    if top < bottom then
      { snapshot with scroll_region := some { top := top, bottom := bottom } }
    else
      { snapshot with scroll_region := none }
  | .cursorStyle style =>
    { snapshot with cursor_shape :=
        match style with
        | .default => .default
        | .blinkingBlock => .blinkingBlock
        | .steadyBlock => .steadyBlock
        | .blinkingUnderline => .blinkingUnderline
        | .steadyUnderline => .steadyUnderline
        | .blinkingBar => .blinkingBar
        | .steadyBar => .steadyBar }
  | .otherCursor => snapshot

/-- `set_mode_entry` (`src/server/src/main.rs:1172-1178`): update the
first entry with the given code in place, else push a new entry at the
end. -/
def set_mode_entry : List ModeEntry → Nat → Bool → List ModeEntry
  | [], code, enabled => [{ code := code, enabled := enabled }]
  | e :: rest, code, enabled =>
    if e.code = code then { code := code, enabled := enabled } :: rest
    else e :: set_mode_entry rest code enabled

/-- The named `termwiz` `DecPrivateModeCode` variants the server matches
on; every other library variant is collapsed into `other` carrying its
numeric code. -/
inductive DecPrivateModeCode
  | showCursor
  | startBlinkingCursor
  | originMode
  | autoWrap
  | clearAndEnableAlternateScreen
  | enableAlternateScreen
  | optEnableAlternateScreen
  | mouseTracking
  | buttonEventMouse
  | anyEventMouse
  | sgrMouse
  | other (code : Nat)
deriving DecidableEq

/-- `ToPrimitive::to_u16` on `DecPrivateModeCode`, with the standard
numeric values of the named variants. -/
def decPrivateModeCodeToU16 : DecPrivateModeCode → Option Nat
  | .showCursor => some 25
  | .startBlinkingCursor => some 12
  | .originMode => some 6
  | .autoWrap => some 7
  | .clearAndEnableAlternateScreen => some 1049
  | .enableAlternateScreen => some 47
  | .optEnableAlternateScreen => some 1047
  | .mouseTracking => some 1000
  | .buttonEventMouse => some 1002
  | .anyEventMouse => some 1003
  | .sgrMouse => some 1006
  | .other code => some code

/-- `termwiz` `DecPrivateMode`: a recognized code or an unspecified
numeric code. -/
inductive DecPrivateMode
  | code (c : DecPrivateModeCode)
  | unspecified (code : Nat)
deriving DecidableEq

/-- `apply_dec_private_mode` (`src/server/src/main.rs:1072-1101`). -/
def apply_dec_private_mode (mode : DecPrivateMode) (snapshot : TerminalSnapshot)
    (enabled : Bool) : TerminalSnapshot :=
  match mode with
  | .unspecified code =>
    { snapshot with
        dec_private_modes := set_mode_entry snapshot.dec_private_modes code enabled }
  | .code c =>
    let snapshot :=
      match decPrivateModeCodeToU16 c with
      | some value =>
        { snapshot with
            dec_private_modes := set_mode_entry snapshot.dec_private_modes value enabled }
      | none => snapshot
    match c with
    | .showCursor => { snapshot with cursor_visible := enabled }
    | .startBlinkingCursor =>
      if enabled then { snapshot with cursor_shape := .blinkingBlock } else snapshot
    | .originMode => { snapshot with origin_mode := enabled }
    | .autoWrap => { snapshot with wrap_mode := enabled }
    | .clearAndEnableAlternateScreen => { snapshot with alt_screen := enabled }
    | .enableAlternateScreen => { snapshot with alt_screen := enabled }
    | .optEnableAlternateScreen => { snapshot with alt_screen := enabled }
    | .mouseTracking => { snapshot with mouse_tracking := enabled }
    | .buttonEventMouse => { snapshot with mouse_button_tracking := enabled }
    | .anyEventMouse => { snapshot with mouse_any_event := enabled }
    | .sgrMouse => { snapshot with mouse_sgr := enabled }
    | .other _ => snapshot

/-- The named `termwiz` `TerminalModeCode` variants the server matches
on; every other variant is collapsed into `other` with its numeric
code. -/
inductive TerminalModeCode
  | insert
  | showCursor
  | other (code : Nat)
deriving DecidableEq

/-- `ToPrimitive::to_u16` on `TerminalModeCode`. -/
def terminalModeCodeToU16 : TerminalModeCode → Option Nat
  | .insert => some 4
  | .showCursor => some 25
  | .other code => some code

/-- `termwiz` `TerminalMode`. -/
inductive TerminalMode
  | code (c : TerminalModeCode)
  | unspecified (code : Nat)
deriving DecidableEq

/-- `apply_terminal_mode` (`src/server/src/main.rs:1103-1119`). -/
def apply_terminal_mode (mode : TerminalMode) (snapshot : TerminalSnapshot)
    (enabled : Bool) : TerminalSnapshot :=
  match mode with
  | .unspecified code =>
    { snapshot with
        terminal_modes := set_mode_entry snapshot.terminal_modes code enabled }
  | .code c =>
    let snapshot :=
      match terminalModeCodeToU16 c with
      | some value =>
        { snapshot with
            terminal_modes := set_mode_entry snapshot.terminal_modes value enabled }
      | none => snapshot
    match c with
    | .insert => { snapshot with insert_mode := enabled }
    | .showCursor => { snapshot with cursor_visible := enabled }
    | .other _ => snapshot

/-! ### SessionRegistry (`src/server/src/main.rs:648-667, 829-893`) -/

/-- `portable_pty::PtySize`. -/
structure PtySize where
  rows : Nat
  cols : Nat
  pixel_width : Nat
  pixel_height : Nat
deriving DecidableEq

/-- `PtySize::default()` (80x24 cells). -/
def defaultPtySize : PtySize :=
  { rows := 24, cols := 80, pixel_width := 0, pixel_height := 0 }

/-- The pure content of a `PtySession`.  The OS-level fields of the Rust
struct (`master`, `writer`, `child`, `_history_handle`) own kernel
resources and carry no pure data; operations that touch them take their
outcomes as explicit parameters instead. -/
structure PtySession where
  size : PtySize
  history : List Nat
  terminal_snapshot : TerminalSnapshot
  subscribers : List Sink
deriving DecidableEq

/-- The registry `HashMap<String, PtySession>` as an association list. -/
abbrev SessionMap := List (String × PtySession)

/-- `sessions.contains_key(agent_name)`. -/
def sessions_contains (sessions : SessionMap) (name : String) : Bool :=
  sessions.any (fun kv => kv.1 = name)

/-- `start_tool_session` (`src/server/src/main.rs:829-886`): under the
registry lock, return success immediately when a session for the agent
already exists; otherwise install the freshly spawned session.
`spawned` is the outcome of the PTY allocation / child spawn / writer
acquisition steps (`none` models a failure of any of them, which the
Rust code surfaces as an internal error before touching the map). -/
def start_tool_session (agent_name tool worktree : String)
    (spawned : Option PtySession) (sessions : SessionMap) :
    Except String SessionMap :=
  if sessions_contains sessions agent_name then .ok sessions
  else
    match spawned with
    | none => .error ("failed to start session for " ++ tool ++ " in " ++ worktree)
    | some s => .ok (sessions ++ [(agent_name, s)])

/-- Replace the stored session of `name` (the in-place mutation through
`sessions.get_mut(agent)`). -/
def update_session (sessions : SessionMap) (name : String) (s : PtySession) :
    SessionMap :=
  sessions.map (fun kv => if kv.1 = name then (name, s) else kv)

/-- `resize_pty` (`src/server/src/main.rs:648-667`): look the agent up,
ask the PTY master to resize, and only on success store the new size.
`master_ok` is the outcome of `session.master.resize(size)`; the
returned pair is (command result, registry state after the call). -/
def resize_pty (agent : String) (cols rows : Nat) (master_ok : Bool)
    (sessions : SessionMap) : Except String Unit × SessionMap :=
  match sessions.lookup agent with
  | none => (.error "agent not found", sessions)
  | some s =>
    if master_ok then
      (.ok (),
        update_session sessions agent
          { s with size := { rows := rows, cols := cols, pixel_width := 0, pixel_height := 0 } })
    else (.error "resize failed", sessions)

/-! ### Repo name generation (`src/server/src/main.rs:755-775`) -/

/-- `workforest_core::RepoConfig`. -/
structure RepoConfig where
  name : String
  path : String
  tools : List String
  default_tool : String
deriving DecidableEq

/-- The retry loop of `generate_repo_name_with_suffix`: try
`base-suffix` for each suffix the generator yields, until one misses
the existing set.  The Rust loop draws from an infinite generator; the
embedding carries the (finite) list of suffixes the generator yields
and answers `none` if all of them collide. -/
def generate_name_loop (base_name : String) (existing : List String) :
    List String → Option String
  | [] => none
  | sfx :: rest =>
    let candidate := base_name ++ "-" ++ sfx
    if existing.contains candidate then generate_name_loop base_name existing rest
    else some candidate

/-- `generate_repo_name_with_suffix` (`src/server/src/main.rs:755-775`):
keep the base name when it is free, otherwise append generator suffixes
until the candidate is free. -/
def generate_repo_name_with_suffix (base_name : String) (repos : List RepoConfig)
    (suffixes : List String) : Option String :=
  let existing := repos.map RepoConfig.name
  if existing.contains base_name then generate_name_loop base_name existing suffixes
  else some base_name

/-! ### Kebab casing (`src/server/src/main.rs:1218-1220`)

`to_kebab` runs `value.trim().to_lowercase().replace([' ', '_'], "-")`.
Strings are embedded as lists of Unicode code points.  `str.trim` uses
the Unicode `White_Space` set, fully enumerated below.  `to_lowercase`
is embedded on the ASCII letters `A..Z`; outside ASCII, Unicode
lowercasing maps every code point to code points that are themselves
fixed by lowercasing and that are neither white space, `' '` nor `'_'`,
so the embedding is faithful for the idempotence claim. -/

/-- `char::is_whitespace`: the Unicode `White_Space` code points. -/
def rust_whitespace (c : Nat) : Bool :=
  c = 9 ∨ c = 10 ∨ c = 11 ∨ c = 12 ∨ c = 13 ∨ c = 32 ∨ c = 133 ∨ c = 160 ∨
  c = 5760 ∨ c = 8192 ∨ c = 8193 ∨ c = 8194 ∨ c = 8195 ∨ c = 8196 ∨
  c = 8197 ∨ c = 8198 ∨ c = 8199 ∨ c = 8200 ∨ c = 8201 ∨ c = 8202 ∨
  c = 8232 ∨ c = 8233 ∨ c = 8239 ∨ c = 8287 ∨ c = 12288

/-- `to_lowercase`, per code point (ASCII range). -/
def lower_char (c : Nat) : Nat := if 65 ≤ c ∧ c ≤ 90 then c + 32 else c

/-- `replace([' ', '_'], "-")`, per code point. -/
def kebab_char (c : Nat) : Nat := if c = 32 ∨ c = 95 then 45 else c

/-- `str::trim`: strip leading and trailing white space. -/
def trim_codes (l : List Nat) : List Nat :=
  ((l.dropWhile rust_whitespace).reverse.dropWhile rust_whitespace).reverse

/-- `to_kebab` (`src/server/src/main.rs:1218-1220`). -/
def to_kebab (l : List Nat) : List Nat :=
  ((trim_codes l).map lower_char).map kebab_char

/-- Code points of a string literal, for readable concrete cases. -/
def str_codes (s : String) : List Nat := s.data.map Char.toNat

/-! ### Claim-side predicate for the trim invariant (C1)

The claims about the trimmed ring speak of its first byte being "a
plain (non-ESC) byte or the first byte of a complete escape sequence
fully contained in the ring"; the following predicates formalize that
wording (they follow the claim, not the source, and exist to state it). -/

/-- A complete CSI body: some byte in `0x40..=0x7e` terminates it. -/
def csiComplete : List Nat → Bool
  | [] => false
  | b :: rest => if 0x40 ≤ b ∧ b ≤ 0x7e then true else csiComplete rest

/-- A complete string-sequence body: BEL or `ESC \` terminates it. -/
def oscComplete : List Nat → Bool
  | [] => false
  | b :: rest =>
    if b = 0x07 then true
    else if b = 0x1b ∧ rest.head? = some 0x5c then true
    else oscComplete rest

/-- The buffer begins with a complete escape sequence fully contained
in it. -/
def complete_sequence_at_start (l : List Nat) : Bool :=
  match l with
  | 0x1b :: next :: rest =>
    if next = 0x5b then csiComplete rest
    else if next = 0x5d ∨ next = 0x50 ∨ next = 0x5e ∨ next = 0x5f then oscComplete rest
    else true
  | _ => false

/-- The claimed shape of a trimmed ring: empty, or starting on a
non-ESC byte, or starting on a complete escape sequence. -/
def ring_starts_clean (l : List Nat) : Bool :=
  match l.head? with
  | none => true
  | some b => if b = 0x1b then complete_sequence_at_start l else true

/-! ## Lemmas about the escape-sequence scanner -/

theorem csiSeqLen_le (l : List Nat) : csiSeqLen l ≤ l.length := by
  induction l with
  | nil => simp [csiSeqLen]
  | cons b rest ih =>
    simp only [csiSeqLen, List.length_cons]
    split <;> omega

theorem oscSeqLen_le (l : List Nat) : oscSeqLen l ≤ l.length := by
  induction l with
  | nil => simp [oscSeqLen]
  | cons b rest ih =>
    simp only [oscSeqLen, List.length_cons]
    split
    · omega
    · split
      · rename_i hpair
        cases rest with
        | nil => simp at hpair
        | cons c t => simp only [List.length_cons]; omega
      · omega

theorem scanStep_bounds {bytes : List Nat} {i j : Nat}
    (h : scanStep bytes i = some j) : i < j ∧ j ≤ bytes.length := by
  unfold scanStep at h
  cases hg : bytes.get? i with
  | none => rw [hg] at h; cases h
  | some b =>
    rw [hg] at h
    dsimp only at h
    have hi : i < bytes.length := by
      by_contra hn
      push_neg at hn
      rw [List.get?_eq_none.mpr hn] at hg
      cases hg
    by_cases hb : b = 0x1b
    · rw [if_pos hb] at h
      cases hg2 : bytes.get? (i + 1) with
      | none => rw [hg2] at h; cases h
      | some next =>
        rw [hg2] at h
        dsimp only at h
        have hi2 : i + 2 ≤ bytes.length := by
          by_contra hn
          push_neg at hn
          rw [List.get?_eq_none.mpr (by omega)] at hg2
          cases hg2
        split at h
        · cases h
          have := csiSeqLen_le (bytes.drop (i + 2))
          rw [List.length_drop] at this
          unfold parse_csi_sequence
          omega
        · split at h
          · cases h
            have := oscSeqLen_le (bytes.drop (i + 2))
            rw [List.length_drop] at this
            unfold parse_string_sequence
            omega
          · cases h
            rw [Nat.min_def]
            split <;> omega
    · rw [if_neg hb] at h
      cases h
      omega

theorem scanBoundariesGo_self_mem (bytes : List Nat) (fuel index : Nat) :
    index ∈ scanBoundariesGo bytes fuel index := by
  cases fuel with
  | zero => simp [scanBoundariesGo]
  | succ n => simp [scanBoundariesGo]

theorem findSafeGo_mem (bytes : List Nat) (overflow : Nat) :
    ∀ fuel index lastSafe,
      findSafeGo bytes overflow fuel index lastSafe = lastSafe ∨
      findSafeGo bytes overflow fuel index lastSafe ∈ scanBoundariesGo bytes fuel index := by
  intro fuel
  induction fuel with
  | zero => intro index lastSafe; left; rfl
  | succ n ih =>
    intro index lastSafe
    cases hs : scanStep bytes index with
    | none => left; simp only [findSafeGo, hs]
    | some j =>
      simp only [findSafeGo, scanBoundariesGo, hs]
      rcases ih j (if j ≤ overflow then j else lastSafe) with h | h
      · rw [h]
        split
        · right
          exact List.mem_cons_of_mem _ (scanBoundariesGo_self_mem bytes n j)
        · left; rfl
      · right
        exact List.mem_cons_of_mem _ h

theorem findSafeGo_le (bytes : List Nat) (overflow : Nat) :
    ∀ fuel index lastSafe, lastSafe ≤ overflow → lastSafe ≤ bytes.length →
      findSafeGo bytes overflow fuel index lastSafe ≤ overflow ∧
      findSafeGo bytes overflow fuel index lastSafe ≤ bytes.length := by
  intro fuel
  induction fuel with
  | zero => intro index lastSafe h1 h2; exact ⟨h1, h2⟩
  | succ n ih =>
    intro index lastSafe h1 h2
    cases hs : scanStep bytes index with
    | none => simp only [findSafeGo, hs]; exact ⟨h1, h2⟩
    | some j =>
      simp only [findSafeGo, hs]
      have hb := scanStep_bounds hs
      split
      · rename_i hj
        exact ih j j hj (by omega)
      · exact ih j lastSafe h1 h2

/-- The cut point returned by `find_safe_history_start` never exceeds
the requested overflow, nor the buffer length. -/
theorem find_safe_le (bytes : List Nat) (overflow : Nat) :
    find_safe_history_start bytes overflow ≤ overflow ∧
    find_safe_history_start bytes overflow ≤ bytes.length :=
  findSafeGo_le bytes overflow (bytes.length + 1) 0 0 (Nat.zero_le _) (Nat.zero_le _)

/-- The cut point returned by `find_safe_history_start` is one of the
positions the escape-sequence scanner visits: a cut there never falls
strictly inside a classified escape sequence. -/
theorem find_safe_mem (bytes : List Nat) (overflow : Nat) :
    find_safe_history_start bytes overflow ∈ scanBoundaries bytes := by
  rcases findSafeGo_mem bytes overflow (bytes.length + 1) 0 0 with h | h
  · rw [find_safe_history_start, h]
    exact scanBoundariesGo_self_mem bytes (bytes.length + 1) 0
  · exact h

theorem findSafeGo_full (bytes : List Nat) :
    ∀ fuel index, index ≤ bytes.length → bytes.length < index + fuel →
      findSafeGo bytes bytes.length fuel index index = bytes.length ∨
      (bytes.get? (bytes.length - 1) = some 0x1b ∧
        findSafeGo bytes bytes.length fuel index index = bytes.length - 1) := by
  intro fuel
  induction fuel with
  | zero => intro index h1 h2; exact absurd h1 (by omega)
  | succ n ih =>
    intro index h1 h2
    cases hs : scanStep bytes index with
    | none =>
      simp only [findSafeGo, hs]
      unfold scanStep at hs
      cases hg : bytes.get? index with
      | none =>
        have := List.get?_eq_none.mp hg
        left
        omega
      | some b =>
        rw [hg] at hs
        dsimp only at hs
        have hi : index < bytes.length := by
          by_contra hn
          push_neg at hn
          rw [List.get?_eq_none.mpr hn] at hg
          cases hg
        by_cases hb : b = 0x1b
        · rw [if_pos hb] at hs
          cases hg2 : bytes.get? (index + 1) with
          | none =>
            have hlen : bytes.length ≤ index + 1 := List.get?_eq_none.mp hg2
            right
            refine ⟨?_, by omega⟩
            have hix : bytes.length - 1 = index := by omega
            rw [hix, hg, hb]
          | some next =>
            rw [hg2] at hs
            dsimp only at hs
            split at hs
            · cases hs
            · split at hs <;> cases hs
        · rw [if_neg hb] at hs
          cases hs
    | some j =>
      simp only [findSafeGo, hs]
      have hb := scanStep_bounds hs
      rw [if_pos hb.2]
      exact ih j hb.2 (by omega)

/-! ## Claims about the history ring (C1, C6) -/

/-- C1 counterexample: the claim fails on both conjuncts.  Appending
`"ab ESC [31m cd"` (9 bytes) to an empty ring with limit 4 leaves 7
bytes — the overflow boundary falls inside the CSI, the trim stops
short, and the ring length exceeds the limit.  Appending `"ab ESC ["`
with limit 2 trims exactly at the ESC, so the ring starts with an
escape sequence that is not complete within the ring. -/
theorem trim_history_claim_counterexample :
    (append_chunk [] [97, 98, 0x1b, 0x5b, 51, 49, 109, 99, 100] 4).length = 7 ∧
    ¬ (append_chunk [] [97, 98, 0x1b, 0x5b, 51, 49, 109, 99, 100] 4).length ≤ 4 ∧
    append_chunk [] [97, 98, 0x1b, 0x5b] 2 = [0x1b, 0x5b] ∧
    ring_starts_clean (append_chunk [] [97, 98, 0x1b, 0x5b] 2) = false := by
  decide

/-- C1 (amended): after an append followed by
`trim_history_to_boundary` with limit `L`, the ring keeps at least
`min(len, L)` bytes — the trim discards at most the overflow, and may
discard less, so the ring can remain longer than `L` — and the
discarded prefix always ends at a position the escape-sequence scanner
visits, never strictly inside a classified escape sequence (the ring
may still begin with a sequence whose terminator lies beyond the end of
the ring). -/
theorem trim_history_amended (history chunk : List Nat) (limit : Nat) :
    min (history ++ chunk).length limit ≤ (append_chunk history chunk limit).length ∧
    (append_chunk history chunk limit).length ≤ (history ++ chunk).length ∧
    ∃ p ∈ scanBoundaries (history ++ chunk),
      append_chunk history chunk limit = (history ++ chunk).drop p := by
  unfold append_chunk trim_history_to_boundary
  by_cases hle : (history ++ chunk).length ≤ limit
  · rw [if_pos hle]
    refine ⟨by omega, Nat.le_refl _, 0, ?_, by simp⟩
    unfold scanBoundaries
    exact scanBoundariesGo_self_mem _ _ 0
  · rw [if_neg hle]
    have hfs := find_safe_le (history ++ chunk) ((history ++ chunk).length - limit)
    refine ⟨?_, ?_, find_safe_history_start (history ++ chunk) ((history ++ chunk).length - limit),
      find_safe_mem _ _, rfl⟩
    · rw [List.length_drop]; omega
    · rw [List.length_drop]; omega

/-- C6 counterexample: with the two-byte ring `"a ESC"` and overflow
equal to the ring length (2), the scanner hits the bare trailing ESC,
breaks without advancing past it, and discards only 1 byte, not all 2. -/
theorem find_safe_full_overflow_counterexample :
    find_safe_history_start [97, 0x1b] ([97, 0x1b] : List Nat).length ≠
      ([97, 0x1b] : List Nat).length ∧
    find_safe_history_start [97, 0x1b] ([97, 0x1b] : List Nat).length = 1 := by
  decide

/-- C6 (amended): trimming with overflow exactly equal to the ring
length discards all bytes, except when the scan reaches a bare ESC in
the final position (an ESC with no classifying byte after it); then
that single ESC byte is kept and everything before it is discarded. -/
theorem find_safe_full_overflow (bytes : List Nat) :
    find_safe_history_start bytes bytes.length = bytes.length ∨
    (bytes.get? (bytes.length - 1) = some 0x1b ∧
      find_safe_history_start bytes bytes.length = bytes.length - 1) :=
  findSafeGo_full bytes (bytes.length + 1) 0 (Nat.zero_le _) (by omega)

/-! ## Claim about the subscriber fanout (C2) -/

theorem write_all_sink_some {chunk : List Nat} {s t : Sink}
    (h : write_all_sink chunk s = some t) :
    sink_write_ok s = true ∧ t.id = s.id ∧ t.log = s.log ++ chunk := by
  unfold write_all_sink at h
  split at h
  · rename_i hok
    cases h
    exact ⟨hok, rfl, rfl⟩
  · cases h

theorem fanout_chunk_ids_sublist (chunk : List Nat) (subs : List Sink) :
    ((fanout_chunk chunk subs).map Sink.id).Sublist (subs.map Sink.id) := by
  induction subs with
  | nil => simp [fanout_chunk]
  | cons s rest ih =>
    cases hw : write_all_sink chunk s with
    | none =>
      simp only [fanout_chunk, List.filterMap_cons, hw, List.map_cons]
      exact ih.cons _
    | some t =>
      simp only [fanout_chunk, List.filterMap_cons, hw, List.map_cons]
      rw [(write_all_sink_some hw).2.1]
      exact ih.cons₂ _

theorem fanout_chunk_mem {chunk : List Nat} {subs : List Sink} {t : Sink}
    (h : t ∈ fanout_chunk chunk subs) :
    ∃ s ∈ subs, sink_write_ok s = true ∧ t.id = s.id ∧ t.log = s.log ++ chunk := by
  rcases List.mem_filterMap.mp h with ⟨s, hs, hw⟩
  exact ⟨s, hs, write_all_sink_some hw⟩

theorem fanout_chunk_removes {chunk : List Nat} {subs : List Sink}
    (hids : (subs.map Sink.id).Nodup) {s : Sink} (hs : s ∈ subs)
    (hfail : sink_write_ok s = false) {t : Sink} (ht : t ∈ fanout_chunk chunk subs) :
    t.id ≠ s.id := by
  intro he
  rcases fanout_chunk_mem ht with ⟨u, hu, hok, hid, _⟩
  have hus : u = s := List.inj_on_of_nodup_map hids hu hs (by rw [← hid, he])
  rw [hus, hfail] at hok
  cases hok

theorem fanout_run_ids_subset (chunks : List (List Nat)) :
    ∀ subs : List Sink, ∀ x, x ∈ (fanout_run chunks subs).map Sink.id → x ∈ subs.map Sink.id := by
  induction chunks with
  | nil => intro subs x hx; simpa [fanout_run] using hx
  | cons c rest ih =>
    intro subs x hx
    have h1 : x ∈ (fanout_chunk c subs).map Sink.id := by
      apply ih (fanout_chunk c subs) x
      simpa [fanout_run] using hx
    exact (fanout_chunk_ids_sublist c subs).subset h1

/-- C2: for every PTY chunk, the fanout keeps subscribers in
registration order (their ids form a sublist); every surviving
subscriber observed exactly the chunk, byte for byte, appended to what
it saw before; every subscriber with a successful write receives the
full chunk; and a subscriber whose write fails is removed in that same
iteration and never appears again in any later fanout iteration. -/
theorem fanout_chunk_correct (chunk : List Nat) (subs : List Sink)
    (hids : (subs.map Sink.id).Nodup) :
    ((fanout_chunk chunk subs).map Sink.id).Sublist (subs.map Sink.id) ∧
    (∀ t ∈ fanout_chunk chunk subs,
      ∃ s ∈ subs, sink_write_ok s = true ∧ t.id = s.id ∧ t.log = s.log ++ chunk) ∧
    (∀ s ∈ subs, sink_write_ok s = true →
      write_all_sink chunk s =
        some { s with log := s.log ++ chunk, pending := s.pending.tail }) ∧
    (∀ s ∈ subs, sink_write_ok s = false →
      (∀ t ∈ fanout_chunk chunk subs, t.id ≠ s.id) ∧
      ∀ rest, s.id ∉ (fanout_run rest (fanout_chunk chunk subs)).map Sink.id) := by
  refine ⟨fanout_chunk_ids_sublist chunk subs, fun t ht => fanout_chunk_mem ht, ?_, ?_⟩
  · intro s _ hok
    unfold write_all_sink
    rw [if_pos hok]
  · intro s hs hfail
    refine ⟨fun t ht => fanout_chunk_removes hids hs hfail ht, ?_⟩
    intro rest hmem
    have hsub := fanout_run_ids_subset rest (fanout_chunk chunk subs) s.id hmem
    rcases List.mem_map.mp hsub with ⟨t, ht, hid⟩
    exact fanout_chunk_removes hids hs hfail ht hid

/-- Witness for C2: two subscribers, the first healthy and the second
failing on its next write. -/
theorem fanout_chunk_correct_witness :
    ((fanout_chunk [65] [⟨1, [], [true]⟩, ⟨2, [], [false]⟩]).map Sink.id).Sublist
      (([⟨1, [], [true]⟩, ⟨2, [], [false]⟩] : List Sink).map Sink.id) :=
  (fanout_chunk_correct [65] [⟨1, [], [true]⟩, ⟨2, [], [false]⟩] (by decide)).1

/-! ## Claims about the session registry (C5, C9, C3) -/

/-- C5: when a session already exists for the agent,
`start_tool_session` returns success with the registry unchanged: the
existing session is kept, no second session is created, and no other
entry is touched. -/
theorem start_tool_session_idempotent (agent_name tool worktree : String)
    (spawned : Option PtySession) (sessions : SessionMap)
    (h : sessions_contains sessions agent_name = true) :
    start_tool_session agent_name tool worktree spawned sessions = .ok sessions := by
  unfold start_tool_session
  rw [if_pos h]

/-- Witness for C5: a one-entry registry, started again (even with a
spawn outcome that would fail, the existing session wins). -/
theorem start_tool_session_idempotent_witness :
    start_tool_session "demo" "claude" "/tmp/wt" none
        [("demo", { size := defaultPtySize, history := [],
                    terminal_snapshot := default_terminal_snapshot, subscribers := [] })] =
      .ok [("demo", { size := defaultPtySize, history := [],
                      terminal_snapshot := default_terminal_snapshot, subscribers := [] })] :=
  start_tool_session_idempotent "demo" "claude" "/tmp/wt" none _ (by decide)

/-- C9: `resize_pty` is atomic on failure — when the PTY master resize
fails, the command errors and the registry (in particular the stored
size) is unchanged; the stored size is written only on master success. -/
theorem resize_pty_atomic (agent : String) (cols rows : Nat) (sessions : SessionMap) :
    (resize_pty agent cols rows false sessions).2 = sessions ∧
    (resize_pty agent cols rows false sessions).1.isOk = false ∧
    ∀ s, sessions.lookup agent = some s →
      (resize_pty agent cols rows true sessions).2 =
        update_session sessions agent
          { s with size := { rows := rows, cols := cols, pixel_width := 0, pixel_height := 0 } } := by
  refine ⟨?_, ?_, ?_⟩
  · cases hl : sessions.lookup agent <;> simp [resize_pty, hl]
  · cases hl : sessions.lookup agent <;>
      simp [resize_pty, hl, Except.isOk, Except.toBool]
  · intro s hl
    simp [resize_pty, hl]

/-- The session used by the C9 witness. -/
def c9session : PtySession :=
  { size := defaultPtySize, history := [],
    terminal_snapshot := default_terminal_snapshot, subscribers := [] }

/-- Witness for C9: a concrete one-entry registry resized with master
success. -/
theorem resize_pty_atomic_witness :
    (resize_pty "fox" 100 40 true [("fox", c9session)]).2 =
      update_session [("fox", c9session)] "fox"
        { c9session with
            size := { rows := 40, cols := 100, pixel_width := 0, pixel_height := 0 } } :=
  (resize_pty_atomic "fox" 100 40 [("fox", c9session)]).2.2 c9session rfl

theorem update_session_lookup {sessions : SessionMap} {name : String} {s0 : PtySession}
    (h : sessions.lookup name = some s0) (s : PtySession) :
    (update_session sessions name s).lookup name = some s := by
  induction sessions with
  | nil => cases h
  | cons kv rest ih =>
    obtain ⟨k, v⟩ := kv
    unfold update_session
    rw [List.map_cons]
    by_cases he : k = name
    · rw [if_pos (by simpa using he)]
      simp [List.lookup]
    · rw [if_neg (by simpa using he)]
      have hb : (name == k) = false := beq_eq_false_iff_ne.mpr (fun hh => he hh.symm)
      simp only [List.lookup, hb] at h ⊢
      exact ih h

/-- The session used in the C3 counterexample: its snapshot carries a
latched scroll region. -/
def c3session : PtySession :=
  { size := defaultPtySize, history := [],
    terminal_snapshot :=
      { default_terminal_snapshot with scroll_region := some { top := 1, bottom := 5 } },
    subscribers := [] }

/-- C3 counterexample: an accepted RESIZE (master resize succeeds, the
broker replies OK) leaves the snapshot's scroll region latched —
`resize_pty` never touches the snapshot, so the region is not cleared
to `None` as claimed. -/
theorem resize_leaves_scroll_region :
    (resize_pty "tiger" 100 40 true [("tiger", c3session)]).1 = .ok () ∧
    ((resize_pty "tiger" 100 40 true [("tiger", c3session)]).2.lookup "tiger").map
        (fun t => t.terminal_snapshot.scroll_region) = some (some { top := 1, bottom := 5 }) ∧
    (some { top := 1, bottom := 5 } : Option ScrollRegion) ≠ none :=
  ⟨rfl, rfl, by decide⟩

/-- C3 (amended): an accepted RESIZE updates the stored PTY size to the
requested dimensions and leaves the session's snapshot — including its
scroll region — exactly as it was. -/
theorem resize_accept_updates_size_only (agent : String) (cols rows : Nat)
    (sessions : SessionMap) (s : PtySession) (hl : sessions.lookup agent = some s) :
    (resize_pty agent cols rows true sessions).1 = .ok () ∧
    ((resize_pty agent cols rows true sessions).2).lookup agent =
      some { s with size := { rows := rows, cols := cols, pixel_width := 0, pixel_height := 0 } } ∧
    (((resize_pty agent cols rows true sessions).2).lookup agent).map
        PtySession.terminal_snapshot = some s.terminal_snapshot := by
  have hupd :
      ((resize_pty agent cols rows true sessions).2).lookup agent =
        some { s with size := { rows := rows, cols := cols, pixel_width := 0, pixel_height := 0 } } := by
    simp only [resize_pty, hl]
    exact update_session_lookup hl _
  refine ⟨by simp [resize_pty, hl], hupd, by rw [hupd]; rfl⟩

/-- Witness for C3 (amended): the counterexample registry again, now
checking the stored size after the accepted resize. -/
theorem resize_accept_updates_size_only_witness :
    ((resize_pty "tiger" 100 40 true [("tiger", c3session)]).2).lookup "tiger" =
      some { c3session with
               size := { rows := 40, cols := 100, pixel_width := 0, pixel_height := 0 } } :=
  (resize_accept_updates_size_only "tiger" 100 40 [("tiger", c3session)] c3session rfl).2.1

/-! ## Claim about set-top-and-bottom margins (C4) -/

/-- C4 counterexample: margins far beyond any realistic terminal height
(one-based rows 1 and 10000) are stored as the scroll region — the code
consults no height at all, while the claim requires clearing whenever a
margin exceeds the current height (24 rows at the default PTY size). -/
theorem set_margins_ignores_height :
    (apply_cursor_to_snapshot (.setTopAndBottomMargins 1 10000)
        default_terminal_snapshot).scroll_region = some { top := 0, bottom := 9999 } ∧
    (some { top := 0, bottom := 9999 } : Option ScrollRegion) ≠ none ∧
    9999 ≥ defaultPtySize.rows := by
  exact ⟨rfl, by decide, by decide⟩

/-- C4 (amended): set-top-and-bottom margins stores the zero-based pair
as the scroll region whenever `top < bottom`, with no check against the
terminal height, and clears it otherwise. -/
theorem set_margins_amended (top bottom : Nat) (snapshot : TerminalSnapshot) :
    (apply_cursor_to_snapshot (.setTopAndBottomMargins top bottom) snapshot).scroll_region =
      if as_zero_based top < as_zero_based bottom then
        some { top := as_zero_based top, bottom := as_zero_based bottom }
      else none := by
  unfold apply_cursor_to_snapshot
  dsimp only
  split <;> rfl

/-! ## Claim about repo name generation (C7) -/

theorem generate_name_loop_fresh (base : String) (existing : List String) :
    ∀ suffixes r, generate_name_loop base existing suffixes = some r →
      existing.contains r = false := by
  intro suffixes
  induction suffixes with
  | nil => intro r h; cases h
  | cons sfx rest ih =>
    intro r h
    unfold generate_name_loop at h
    dsimp only at h
    split at h
    · exact ih r h
    · rename_i hc
      cases h
      simpa using hc

/-- C7: name generation keeps the base name when it is not among the
existing repo names, appends the generated suffix on a collision,
re-rolls when the suffixed candidate also collides, and never returns a
name from the existing set. -/
theorem generate_repo_name_correct :
    generate_repo_name_with_suffix "demo"
        [{ name := "other", path := "/r", tools := [], default_tool := "" }] ["suffix"] =
      some "demo" ∧
    generate_repo_name_with_suffix "demo"
        [{ name := "demo", path := "/r", tools := [], default_tool := "" }] ["alpha"] =
      some "demo-alpha" ∧
    generate_repo_name_with_suffix "demo"
        [{ name := "demo", path := "/r", tools := [], default_tool := "" },
         { name := "demo-alpha", path := "/r", tools := [], default_tool := "" }]
        ["alpha", "bravo"] =
      some "demo-bravo" ∧
    ∀ (base : String) (repos : List RepoConfig) (suffixes : List String) (r : String),
      generate_repo_name_with_suffix base repos suffixes = some r →
        r ∉ repos.map RepoConfig.name := by
  refine ⟨by decide, by decide, by decide, ?_⟩
  intro base repos suffixes r h
  simp only [generate_repo_name_with_suffix] at h
  split at h
  · have hfresh := generate_name_loop_fresh base (repos.map RepoConfig.name) suffixes r h
    intro hmem
    have hc2 : (repos.map RepoConfig.name).contains r = true := List.elem_iff.mpr hmem
    rw [hc2] at hfresh
    cases hfresh
  · rename_i hc
    cases h
    intro hmem
    exact hc (List.elem_iff.mpr hmem)

/-- Witness for C7: the re-roll scenario, instantiating the
freshness conjunct. -/
theorem generate_repo_name_correct_witness :
    "demo-bravo" ∉
      ([{ name := "demo", path := "/r", tools := [], default_tool := "" },
        { name := "demo-alpha", path := "/r", tools := [], default_tool := "" }] :
          List RepoConfig).map RepoConfig.name :=
  generate_repo_name_correct.2.2.2 "demo"
    [{ name := "demo", path := "/r", tools := [], default_tool := "" },
     { name := "demo-alpha", path := "/r", tools := [], default_tool := "" }]
    ["alpha", "bravo"] "demo-bravo" (by decide)

/-! ## Claim about kebab casing (C8) -/

theorem lower_char_idem (c : Nat) : lower_char (lower_char c) = lower_char c := by
  by_cases h : 65 ≤ c ∧ c ≤ 90
  · simp only [lower_char, if_pos h]
    rw [if_neg (by omega)]
  · simp only [lower_char, if_neg h]

theorem kebab_char_idem (c : Nat) : kebab_char (kebab_char c) = kebab_char c := by
  by_cases h : c = 32 ∨ c = 95
  · simp only [kebab_char, if_pos h]
    rw [if_neg (by omega)]
  · simp only [kebab_char, if_neg h]

theorem lower_kebab_lower (c : Nat) :
    lower_char (kebab_char (lower_char c)) = kebab_char (lower_char c) := by
  by_cases h : lower_char c = 32 ∨ lower_char c = 95
  · simp only [kebab_char, if_pos h]
    simp only [lower_char]
    rw [if_neg (by omega)]
  · simp only [kebab_char, if_neg h]
    exact lower_char_idem c

theorem kebab_lower_not_ws {c : Nat} (h : rust_whitespace c = false) :
    rust_whitespace (kebab_char (lower_char c)) = false := by
  have hval : kebab_char (lower_char c) = 45 ∨
      (kebab_char (lower_char c) = c + 32 ∧ 65 ≤ c ∧ c ≤ 90) ∨
      kebab_char (lower_char c) = c := by
    by_cases h1 : 65 ≤ c ∧ c ≤ 90
    · simp only [lower_char, if_pos h1, kebab_char]
      by_cases h2 : c + 32 = 32 ∨ c + 32 = 95
      · rw [if_pos h2]; left; rfl
      · rw [if_neg h2]; right; left; exact ⟨rfl, h1⟩
    · simp only [lower_char, if_neg h1, kebab_char]
      by_cases h2 : c = 32 ∨ c = 95
      · rw [if_pos h2]; left; rfl
      · rw [if_neg h2]; right; right; rfl
  simp only [rust_whitespace, decide_eq_false_iff_not] at h ⊢
  rcases hval with hv | ⟨hv, hr⟩ | hv
  · rw [hv]; decide
  · rw [hv]; push_neg; omega
  · rw [hv]; exact h

theorem head?_dropWhile_false (p : Nat → Bool) (l : List Nat) {c : Nat}
    (h : (l.dropWhile p).head? = some c) : p c = false := by
  induction l with
  | nil => cases h
  | cons a t ih =>
    rw [List.dropWhile_cons] at h
    split at h
    · exact ih h
    · rename_i hp
      rw [List.head?_cons] at h
      cases h
      simpa using hp

theorem dropWhile_eq_self_of_head (p : Nat → Bool) (l : List Nat)
    (h : ∀ c, l.head? = some c → p c = false) : l.dropWhile p = l := by
  cases l with
  | nil => rfl
  | cons a t => rw [List.dropWhile_cons, if_neg (by simp [h a rfl])]

theorem head?_of_pre {p m : List Nat} (h : p <+: m) {c : Nat}
    (hc : p.head? = some c) : m.head? = some c := by
  rcases h with ⟨t, rfl⟩
  cases p with
  | nil => cases hc
  | cons a u => simpa using hc

theorem trim_head_not_ws {l : List Nat} {c : Nat}
    (h : (trim_codes l).head? = some c) : rust_whitespace c = false := by
  unfold trim_codes at h
  have hsuf : List.dropWhile rust_whitespace (List.dropWhile rust_whitespace l).reverse <:+
      (List.dropWhile rust_whitespace l).reverse := List.dropWhile_suffix _
  have hpre :
      (List.dropWhile rust_whitespace (List.dropWhile rust_whitespace l).reverse).reverse <+:
        List.dropWhile rust_whitespace l := by
    have := List.reverse_prefix.mpr hsuf
    rwa [List.reverse_reverse] at this
  exact head?_dropWhile_false rust_whitespace l (head?_of_pre hpre h)

theorem trim_last_not_ws {l : List Nat} {c : Nat}
    (h : (trim_codes l).getLast? = some c) : rust_whitespace c = false := by
  unfold trim_codes at h
  rw [List.getLast?_reverse] at h
  exact head?_dropWhile_false rust_whitespace _ h

theorem trim_codes_eq_self {l : List Nat}
    (h1 : ∀ c, l.head? = some c → rust_whitespace c = false)
    (h2 : ∀ c, l.getLast? = some c → rust_whitespace c = false) :
    trim_codes l = l := by
  unfold trim_codes
  rw [dropWhile_eq_self_of_head rust_whitespace l h1]
  rw [dropWhile_eq_self_of_head rust_whitespace l.reverse
      (fun c hc => h2 c (by rwa [List.head?_reverse] at hc))]
  exact List.reverse_reverse l

/-- C8: the kebab function is idempotent on every code-point string,
and on the concrete inputs maps `"Wild_Cat"` to `"wild-cat"` and
`"Blue Fox"` to `"blue-fox"`. -/
theorem to_kebab_idempotent_and_cases :
    (∀ l : List Nat, to_kebab (to_kebab l) = to_kebab l) ∧
    to_kebab (str_codes "Wild_Cat") = str_codes "wild-cat" ∧
    to_kebab (str_codes "Blue Fox") = str_codes "blue-fox" := by
  refine ⟨?_, by decide, by decide⟩
  intro l
  have hmap : to_kebab l = (trim_codes l).map (fun c => kebab_char (lower_char c)) := by
    unfold to_kebab
    rw [List.map_map]
    rfl
  have htrim : trim_codes (to_kebab l) = to_kebab l := by
    apply trim_codes_eq_self
    · intro c hc
      rw [hmap, List.head?_map] at hc
      cases hh : (trim_codes l).head? with
      | none => rw [hh] at hc; cases hc
      | some a =>
        rw [hh] at hc
        simp only [Option.map_some'] at hc
        cases hc
        exact kebab_lower_not_ws (trim_head_not_ws hh)
    · intro c hc
      rw [hmap, List.getLast?_map] at hc
      cases hh : (trim_codes l).getLast? with
      | none => rw [hh] at hc; cases hc
      | some a =>
        rw [hh] at hc
        simp only [Option.map_some'] at hc
        cases hc
        exact kebab_lower_not_ws (trim_last_not_ws hh)
  calc to_kebab (to_kebab l)
      = ((trim_codes (to_kebab l)).map lower_char).map kebab_char := rfl
    _ = ((to_kebab l).map lower_char).map kebab_char := by rw [htrim]
    _ = to_kebab l := by
        rw [hmap, List.map_map, List.map_map]
        apply List.map_congr_left
        intro a _
        show kebab_char (lower_char (kebab_char (lower_char a))) = kebab_char (lower_char a)
        rw [lower_kebab_lower, kebab_char_idem]

/-! ## Claim about the mode maps (C10) -/

theorem set_mode_entry_codes (entries : List ModeEntry) (code : Nat) (enabled : Bool) :
    (set_mode_entry entries code enabled).map ModeEntry.code =
      if code ∈ entries.map ModeEntry.code then entries.map ModeEntry.code
      else entries.map ModeEntry.code ++ [code] := by
  induction entries with
  | nil => simp [set_mode_entry]
  | cons e rest ih =>
    rw [List.map_cons]
    unfold set_mode_entry
    by_cases he : e.code = code
    · rw [if_pos he, if_pos (by simp [he])]
      simp [he]
    · rw [if_neg he, List.map_cons, ih]
      by_cases hm : code ∈ rest.map ModeEntry.code
      · rw [if_pos hm, if_pos (List.mem_cons_of_mem _ hm)]
      · rw [if_neg hm,
          if_neg (by simp only [List.mem_cons, hm, or_false]; exact fun hh => he hh.symm)]
        simp

theorem set_mode_entry_nodup_codes {entries : List ModeEntry} (code : Nat) (enabled : Bool)
    (h : (entries.map ModeEntry.code).Nodup) :
    ((set_mode_entry entries code enabled).map ModeEntry.code).Nodup := by
  rw [set_mode_entry_codes]
  split
  · exact h
  · rename_i hm
    rw [List.nodup_append]
    exact ⟨h, List.nodup_singleton _, List.disjoint_singleton.mpr hm⟩

theorem set_mode_entry_length (entries : List ModeEntry) (code : Nat) (enabled : Bool)
    (h : code ∈ entries.map ModeEntry.code) :
    (set_mode_entry entries code enabled).length = entries.length := by
  have hlen := congrArg List.length (set_mode_entry_codes entries code enabled)
  rw [if_pos h] at hlen
  simpa using hlen

theorem apply_dec_private_mode_dec_codes (mode : DecPrivateMode)
    (snapshot : TerminalSnapshot) (enabled : Bool) :
    ∃ v, (apply_dec_private_mode mode snapshot enabled).dec_private_modes =
      set_mode_entry snapshot.dec_private_modes v enabled := by
  cases mode with
  | unspecified code => exact ⟨code, rfl⟩
  | code c =>
    cases c <;> first
      | exact ⟨_, rfl⟩
      | (cases enabled <;> exact ⟨_, rfl⟩)

theorem apply_dec_private_mode_term_modes (mode : DecPrivateMode)
    (snapshot : TerminalSnapshot) (enabled : Bool) :
    (apply_dec_private_mode mode snapshot enabled).terminal_modes =
      snapshot.terminal_modes := by
  cases mode with
  | unspecified code => rfl
  | code c => cases c <;> first | rfl | (cases enabled <;> rfl)

theorem apply_terminal_mode_term_codes (mode : TerminalMode)
    (snapshot : TerminalSnapshot) (enabled : Bool) :
    ∃ v, (apply_terminal_mode mode snapshot enabled).terminal_modes =
      set_mode_entry snapshot.terminal_modes v enabled := by
  cases mode with
  | unspecified code => exact ⟨code, rfl⟩
  | code c => cases c <;> exact ⟨_, rfl⟩

theorem apply_terminal_mode_dec_modes (mode : TerminalMode)
    (snapshot : TerminalSnapshot) (enabled : Bool) :
    (apply_terminal_mode mode snapshot enabled).dec_private_modes =
      snapshot.dec_private_modes := by
  cases mode with
  | unspecified code => rfl
  | code c => cases c <;> rfl

/-- C10: the mode maps never grow duplicates — `set_mode_entry`
preserves distinctness of the codes and, when the code is already
present, updates the existing entry in place (same length, no second
entry); both `apply_dec_private_mode` and `apply_terminal_mode`
preserve distinctness of the codes in both maps. -/
theorem mode_maps_no_duplicates (entries : List ModeEntry) (code : Nat) (enabled : Bool)
    (mode : DecPrivateMode) (tmode : TerminalMode) (snapshot : TerminalSnapshot) (en : Bool)
    (hent : (entries.map ModeEntry.code).Nodup)
    (hdec : (snapshot.dec_private_modes.map ModeEntry.code).Nodup)
    (hterm : (snapshot.terminal_modes.map ModeEntry.code).Nodup) :
    ((set_mode_entry entries code enabled).map ModeEntry.code).Nodup ∧
    (code ∈ entries.map ModeEntry.code →
      (set_mode_entry entries code enabled).length = entries.length) ∧
    ((apply_dec_private_mode mode snapshot en).dec_private_modes.map ModeEntry.code).Nodup ∧
    ((apply_dec_private_mode mode snapshot en).terminal_modes.map ModeEntry.code).Nodup ∧
    ((apply_terminal_mode tmode snapshot en).terminal_modes.map ModeEntry.code).Nodup ∧
    ((apply_terminal_mode tmode snapshot en).dec_private_modes.map ModeEntry.code).Nodup := by
  refine ⟨set_mode_entry_nodup_codes code enabled hent,
    fun hm => set_mode_entry_length entries code enabled hm, ?_, ?_, ?_, ?_⟩
  · rcases apply_dec_private_mode_dec_codes mode snapshot en with ⟨v, hv⟩
    rw [hv]
    exact set_mode_entry_nodup_codes v en hdec
  · rw [apply_dec_private_mode_term_modes]
    exact hterm
  · rcases apply_terminal_mode_term_codes tmode snapshot en with ⟨v, hv⟩
    rw [hv]
    exact set_mode_entry_nodup_codes v en hterm
  · rw [apply_terminal_mode_dec_modes]
    exact hdec

/-- Witness for C10: a one-entry DEC map whose code 25 is reset again —
the map keeps a single entry. -/
theorem mode_maps_no_duplicates_witness :
    ((set_mode_entry [{ code := 25, enabled := true }] 25 false).map ModeEntry.code).Nodup :=
  (mode_maps_no_duplicates [{ code := 25, enabled := true }] 25 false
    (.code .showCursor) (.code .insert) default_terminal_snapshot true
    (by decide) (by decide) (by decide)).1

end Workforest

